import Mathlib

/-!
Verification of the wormhole-explorer chain-ingestion pipeline against its
specification.  Each component that a claim refers to is shallowly embedded
here as executable Lean definitions translated from the repository's source,
and the claims are settled as theorems about those definitions.
-/

namespace Moonbeam

/-!
Model of `MoonbeamEvmJsonRPCBlockRepository.getBlockHeight`
(`src/blockchain-watcher/src/infrastructure/repositories/evm/MoonbeamEvmJsonRPCBlockRepository.ts`).

The method first obtains a candidate height `blockNumber` from the generic
`super.getBlockHeight`, then loops `while (!isBlockFinalized && attempts <= MAX_ATTEMPTS)`:
it sleeps `sleepTime` ms, fetches the block hash, posts a `moon_isBlockFinalized`
request, sets `isBlockFinalized = result ?? false`, and increments both
`sleepTime` (by `GROW_SLEEP_TIME`) and `attempts`.  A thrown error from the
body is caught, logged, and performs the same two increments.  After the loop,
`attempts > MAX_ATTEMPTS` throws `The block ${blockNumber} never ended`,
otherwise the candidate `blockNumber` is returned.

The environment (block fetch + finality RPC) is modelled as an oracle giving
the outcome of the `try` body on the n-th loop iteration: either the boolean
the RPC produced (`ok b`, with `result ?? false` already applied) or a thrown
error (`thrown`).  The sleeps actually performed are recorded in the state.
-/

def GROW_SLEEP_TIME : Nat := 350

def MAX_ATTEMPTS : Nat := 10

/-- Outcome of one iteration of the polling loop body: the finality RPC
returned a boolean, or the body (block fetch or RPC) threw. -/
inductive AttemptOutcome where
  | ok (result : Bool)
  | thrown
deriving DecidableEq, Repr

/-- The mutable locals of `getBlockHeight`'s loop, plus the trace of sleep
durations performed (one sleep at the head of every iteration). -/
structure LoopState where
  isBlockFinalized : Bool
  sleepTime : Nat
  attempts : Nat
  sleeps : List Nat
deriving DecidableEq, Repr

/-- One iteration of the loop body: sleep `sleepTime`, run the body with
outcome `o`; on `ok r` set `isBlockFinalized := r`, on a thrown error leave
it unchanged; in both cases grow `sleepTime` by `GROW_SLEEP_TIME` and
increment `attempts`. -/
def step (o : AttemptOutcome) (s : LoopState) : LoopState :=
  { isBlockFinalized := match o with | .ok r => r | .thrown => s.isBlockFinalized
    sleepTime := s.sleepTime + GROW_SLEEP_TIME
    attempts := s.attempts + 1
    sleeps := s.sleeps ++ [s.sleepTime] }

/-- The `while (!isBlockFinalized && attempts <= MAX_ATTEMPTS)` loop; the
oracle is consulted at the current `attempts` counter, which counts the
iterations performed so far. -/
def runLoop (oracle : Nat → AttemptOutcome) (s : LoopState) : LoopState :=
  if h : s.isBlockFinalized = false ∧ s.attempts ≤ MAX_ATTEMPTS then
    runLoop oracle (step (oracle s.attempts) s)
  else s
termination_by MAX_ATTEMPTS + 1 - s.attempts
decreasing_by
  simp only [step]
  omega

/-- Initial loop state: `isBlockFinalized = false`, `sleepTime = 100`,
`attempts = 0`. -/
def initState : LoopState :=
  { isBlockFinalized := false, sleepTime := 100, attempts := 0, sleeps := [] }

/-- The method `getBlockHeight`, given the candidate height `blockNumber` obtained from
the generic `super.getBlockHeight` query and the oracle for the finality
polling loop.  Throwing is modelled by `Except.error` carrying the thrown
message. -/
def getBlockHeight (blockNumber : Nat) (oracle : Nat → AttemptOutcome) : Except String Nat :=
  let final := runLoop oracle initState
  if final.attempts > MAX_ATTEMPTS then
    Except.error ("The block " ++ toString blockNumber ++ " never ended")
  else
    Except.ok blockNumber

end Moonbeam

namespace Moonbeam

theorem runLoop_eq (oracle : Nat → AttemptOutcome) (s : LoopState) :
    runLoop oracle s =
      if s.isBlockFinalized = false ∧ s.attempts ≤ MAX_ATTEMPTS then
        runLoop oracle (step (oracle s.attempts) s)
      else s := by
  rw [runLoop]
  split
  · rfl
  · rfl

/-- The arithmetic progression of sleep times, peeled by one step. -/
theorem sleeps_shift (t c j : Nat) :
    (List.range (j + 1)).map (fun i => t + c * i) =
      t :: (List.range j).map (fun i => t + c + c * i) := by
  rw [List.range_succ_eq_map]
  simp only [List.map_cons, List.map_map, Nat.mul_zero, Nat.add_zero]
  congr 1
  apply List.map_congr_left
  intro i _
  simp only [Function.comp_apply, Nat.succ_eq_add_one, Nat.mul_add, Nat.mul_one]
  omega

/-- If the oracle answers `ok false` for `j` iterations starting at attempt
counter `a` and then `ok true`, the loop stops finalized after `j + 1` more
iterations, having slept the arithmetic progression of sleep times. -/
theorem runLoop_success (oracle : Nat → AttemptOutcome) :
    ∀ (j a t : Nat) (sl : List Nat), a + j ≤ MAX_ATTEMPTS →
      (∀ i, i < j → oracle (a + i) = .ok false) →
      oracle (a + j) = .ok true →
      runLoop oracle ⟨false, t, a, sl⟩ =
        ⟨true, t + GROW_SLEEP_TIME * (j + 1), a + j + 1,
          sl ++ (List.range (j + 1)).map (fun i => t + GROW_SLEEP_TIME * i)⟩ := by
  intro j
  induction j with
  | zero =>
    intro a t sl ha _ htrue
    rw [runLoop_eq]
    simp only [Nat.add_zero] at htrue ha
    rw [if_pos ⟨rfl, ha⟩, htrue]
    rw [runLoop_eq]
    simp [step, List.range_succ]
  | succ j ih =>
    intro a t sl ha hfalse htrue
    rw [runLoop_eq]
    rw [if_pos ⟨rfl, show a ≤ MAX_ATTEMPTS by omega⟩]
    have h0 : oracle a = .ok false := by
      have := hfalse 0 (by omega)
      simpa using this
    rw [h0]
    have hstep : step (.ok false) ⟨false, t, a, sl⟩ =
        ⟨false, t + GROW_SLEEP_TIME, a + 1, sl ++ [t]⟩ := by
      simp [step]
    rw [hstep]
    have ih2 := ih (a + 1) (t + GROW_SLEEP_TIME) (sl ++ [t]) (by omega)
      (fun i hi => by
        have := hfalse (i + 1) (by omega)
        simpa [Nat.add_assoc, Nat.add_comm, Nat.add_left_comm] using this)
      (by
        have harith : a + 1 + j = a + (j + 1) := by omega
        rw [harith]
        exact htrue)
    rw [ih2]
    conv_rhs => rw [sleeps_shift]
    have e1 : t + GROW_SLEEP_TIME + GROW_SLEEP_TIME * (j + 1) =
        t + GROW_SLEEP_TIME * (j + 1 + 1) := by
      simp only [GROW_SLEEP_TIME]
      omega
    have e2 : a + 1 + j + 1 = a + (j + 1) + 1 := by omega
    rw [e1, e2]
    simp [List.append_assoc]

/-- If the oracle never answers `ok true`, the loop runs until the attempt
budget is exhausted: starting not-finalized at attempt counter `a` with
`a + j = MAX_ATTEMPTS + 1`, it performs exactly `j` more iterations and ends
not finalized with `attempts = MAX_ATTEMPTS + 1`. -/
theorem runLoop_exhaust (oracle : Nat → AttemptOutcome)
    (hnever : ∀ i, oracle i ≠ .ok true) :
    ∀ (j a t : Nat) (sl : List Nat), a + j = MAX_ATTEMPTS + 1 →
      runLoop oracle ⟨false, t, a, sl⟩ =
        ⟨false, t + GROW_SLEEP_TIME * j, a + j,
          sl ++ (List.range j).map (fun i => t + GROW_SLEEP_TIME * i)⟩ := by
  intro j
  induction j with
  | zero =>
    intro a t sl ha
    rw [runLoop_eq]
    rw [if_neg (fun hc => absurd hc.2 (show ¬ a ≤ MAX_ATTEMPTS by omega))]
    simp
  | succ j ih =>
    intro a t sl ha
    rw [runLoop_eq]
    rw [if_pos ⟨rfl, show a ≤ MAX_ATTEMPTS by omega⟩]
    have hstep : step (oracle a) ⟨false, t, a, sl⟩ =
        ⟨false, t + GROW_SLEEP_TIME, a + 1, sl ++ [t]⟩ := by
      have hthis := hnever a
      cases h : oracle a with
      | ok r =>
        cases r with
        | false => simp [step]
        | true => exact absurd h hthis
      | thrown => simp [step]
    rw [hstep]
    rw [ih (a + 1) (t + GROW_SLEEP_TIME) (sl ++ [t]) (by omega)]
    conv_rhs => rw [sleeps_shift]
    have e1 : t + GROW_SLEEP_TIME + GROW_SLEEP_TIME * j =
        t + GROW_SLEEP_TIME * (j + 1) := by
      simp only [GROW_SLEEP_TIME]
      omega
    have e2 : a + 1 + j = a + (j + 1) := by omega
    rw [e1, e2]
    simp [List.append_assoc]

/-- Whatever the oracle does, the loop ends either with finality confirmed
or with the shared attempt budget exhausted (`attempts = MAX_ATTEMPTS + 1`). -/
theorem runLoop_post (oracle : Nat → AttemptOutcome) (s : LoopState)
    (hs : s.attempts ≤ MAX_ATTEMPTS + 1) :
    (runLoop oracle s).isBlockFinalized = true ∨
      (runLoop oracle s).attempts = MAX_ATTEMPTS + 1 := by
  rw [runLoop_eq]
  split
  · next h =>
    exact runLoop_post oracle (step (oracle s.attempts) s) (by simp [step]; omega)
  · next h =>
    rcases Decidable.em (s.isBlockFinalized = false) with hf | hf
    · right
      have : ¬ s.attempts ≤ MAX_ATTEMPTS := fun hle => h ⟨hf, hle⟩
      omega
    · left
      rcases Bool.eq_false_or_eq_true s.isBlockFinalized with ht | ht
      · exact ht
      · exact absurd ht hf
termination_by MAX_ATTEMPTS + 1 - s.attempts
decreasing_by
  simp only [step]
  omega

/-- An arithmetic progression of sleep times grows by exactly `c` at every
consecutive pair. -/
theorem chain'_progression (t c m : Nat) :
    ((List.range m).map (fun i => t + c * i)).Chain' (fun a b => b = a + c) := by
  rw [List.chain'_map]
  cases m with
  | zero => simp
  | succ n =>
    rw [List.chain'_range_succ]
    intro i _
    simp only [Nat.mul_succ]
    omega

/-- C1: when the finality predicate becomes true on the k-th call with
`k < MAX_ATTEMPTS`, `getBlockHeight` returns the block number obtained from
the initial generic height query, and the sleep intervals are monotonically
non-decreasing, growing by exactly `GROW_SLEEP_TIME` on every retry. -/
theorem getBlockHeight_finality_linear_backoff
    (blockNumber k : Nat) (oracle : Nat → AttemptOutcome)
    (hk1 : 1 ≤ k) (hk : k < MAX_ATTEMPTS)
    (hfalse : ∀ i, i + 1 < k → oracle i = .ok false)
    (htrue : oracle (k - 1) = .ok true) :
    getBlockHeight blockNumber oracle = Except.ok blockNumber ∧
    (runLoop oracle initState).sleeps =
      (List.range k).map (fun i => 100 + GROW_SLEEP_TIME * i) ∧
    (runLoop oracle initState).sleeps.Chain' (fun a b => b = a + GROW_SLEEP_TIME) ∧
    (runLoop oracle initState).sleeps.Chain' (· ≤ ·) := by
  have hinit : (initState : LoopState) = ⟨false, 100, 0, []⟩ := rfl
  have hrun := runLoop_success oracle (k - 1) 0 100 []
    (by omega)
    (fun i hi => by
      have := hfalse i (by omega)
      simpa using this)
    (by simpa using htrue)
  have hk' : k - 1 + 1 = k := by omega
  rw [hk'] at hrun
  have hsleeps : (runLoop oracle initState).sleeps =
      (List.range k).map (fun i => 100 + GROW_SLEEP_TIME * i) := by
    rw [hinit, hrun]
    simp
  refine ⟨?_, hsleeps, ?_, ?_⟩
  · unfold getBlockHeight
    rw [hinit, hrun]
    simp only
    rw [if_neg (show ¬ 0 + (k - 1) + 1 > MAX_ATTEMPTS by omega)]
  · rw [hsleeps]
    exact chain'_progression 100 GROW_SLEEP_TIME k
  · rw [hsleeps]
    exact (chain'_progression 100 GROW_SLEEP_TIME k).imp
      (fun a b hab => by omega)

/-- C2: when the finality predicate never confirms, `getBlockHeight` performs
the initial attempt plus `MAX_ATTEMPTS` retries (`MAX_ATTEMPTS + 1` loop
iterations in all) and then throws the error naming the unresolved block
number; it never returns a (stale) height. -/
theorem getBlockHeight_never_finalized
    (blockNumber : Nat) (oracle : Nat → AttemptOutcome)
    (hnever : ∀ i, oracle i ≠ .ok true) :
    getBlockHeight blockNumber oracle =
      Except.error ("The block " ++ toString blockNumber ++ " never ended") ∧
    (∀ m, getBlockHeight blockNumber oracle ≠ Except.ok m) ∧
    (runLoop oracle initState).attempts = MAX_ATTEMPTS + 1 ∧
    (runLoop oracle initState).sleeps.length = MAX_ATTEMPTS + 1 := by
  have hinit : (initState : LoopState) = ⟨false, 100, 0, []⟩ := rfl
  have hrun := runLoop_exhaust oracle hnever (MAX_ATTEMPTS + 1) 0 100 [] (by omega)
  have herr : getBlockHeight blockNumber oracle =
      Except.error ("The block " ++ toString blockNumber ++ " never ended") := by
    unfold getBlockHeight
    rw [hinit, hrun]
    simp only
    rw [if_pos (show 0 + (MAX_ATTEMPTS + 1) > MAX_ATTEMPTS by omega)]
  refine ⟨herr, ?_, ?_, ?_⟩
  · intro m heq
    rw [herr] at heq
    exact Except.noConfusion heq
  · rw [hinit, hrun]
    simp
  · rw [hinit, hrun]
    simp

/-- C3: within one call, a thrown RPC error in the loop body is treated
exactly like a no-progress retry — the state transition is identical to the
`ok false` transition (same single attempt consumed, same
`GROW_SLEEP_TIME` sleep growth), there is no separate failure path, and the
loop always ends either finality-confirmed or with the one shared budget
exhausted. -/
theorem finality_rpc_failure_same_budget
    (oracle : Nat → AttemptOutcome) (s : LoopState) (o : AttemptOutcome)
    (ho : o ≠ .ok true) (hs : s.isBlockFinalized = false) :
    step o s = step (.ok false) s ∧
    (step o s).attempts = s.attempts + 1 ∧
    (step o s).sleepTime = s.sleepTime + GROW_SLEEP_TIME ∧
    ((runLoop oracle initState).isBlockFinalized = true ∨
      (runLoop oracle initState).attempts = MAX_ATTEMPTS + 1) := by
  refine ⟨?_, rfl, rfl, runLoop_post oracle initState (Nat.zero_le _)⟩
  cases o with
  | ok r =>
    cases r with
    | false => rfl
    | true => exact absurd rfl ho
  | thrown => simp [step, hs]

/-- Witness for C1 at a concrete input: the predicate answers false twice and
then true (k = 3); the height from the initial query (1000) is returned and
the recorded sleeps are 100, 450, 800 ms. -/
theorem getBlockHeight_finality_linear_backoff_witness :
    getBlockHeight 1000 (fun i => if i < 2 then .ok false else .ok true) =
      Except.ok 1000 ∧
    (runLoop (fun i => if i < 2 then .ok false else .ok true) initState).sleeps =
      [100, 450, 800] := by
  have h := getBlockHeight_finality_linear_backoff 1000 3
    (fun i => if i < 2 then .ok false else .ok true)
    (by omega)
    (by simp [MAX_ATTEMPTS])
    (fun i hi => by
      show (if i < 2 then AttemptOutcome.ok false else AttemptOutcome.ok true) =
        AttemptOutcome.ok false
      rw [if_pos (by omega)])
    (by rfl)
  refine ⟨h.1, ?_⟩
  rw [h.2.1]
  rfl

/-- Witness for C2 at a concrete input: a predicate that always answers false
makes `getBlockHeight 55` throw the error naming block 55 after
`MAX_ATTEMPTS + 1` loop iterations. -/
theorem getBlockHeight_never_finalized_witness :
    getBlockHeight 55 (fun _ => .ok false) =
      Except.error ("The block " ++ toString 55 ++ " never ended") ∧
    (runLoop (fun _ => .ok false) initState).attempts = MAX_ATTEMPTS + 1 := by
  have h := getBlockHeight_never_finalized 55 (fun _ => .ok false) (by intro i; simp)
  exact ⟨h.1, h.2.2.1⟩

/-- Witness for C3 at a concrete input: a thrown RPC failure performs exactly
the `ok false` transition on the initial state. -/
theorem finality_rpc_failure_same_budget_witness :
    step AttemptOutcome.thrown initState = step (AttemptOutcome.ok false) initState :=
  (finality_rpc_failure_same_budget (fun _ => .thrown) initState .thrown
    (by decide) rfl).1

end Moonbeam

namespace Batching

/-!
Model of `divideIntoBatches` (blockchain-watcher EVM log query batching,
`src/unnamed/part_000`): iterate the input set in order, pushing items into a
working array; whenever the working array reaches `batchSize` elements it is
emitted as a batch and reset; a non-empty remainder is emitted as a final
batch.  A JS `Set` iterates its (distinct) elements in insertion order, so it
is modelled as a `List` with a `Nodup` hypothesis where distinctness matters.
-/

variable {α : Type}

/-- The `set.forEach` loop of `divideIntoBatches`: `batch` is the working
array, `batches` the accumulator of emitted batches. -/
def divideGo (batchSize : Nat) : List α → List α → List (List α) → List (List α)
  | [], batch, batches => if 0 < batch.length then batches ++ [batch] else batches
  | x :: rest, batch, batches =>
    let batch2 := batch ++ [x]
    if batch2.length = batchSize then divideGo batchSize rest [] (batches ++ [batch2])
    else divideGo batchSize rest batch2 batches

/-- The function `divideIntoBatches(set, batchSize)`. -/
def divideIntoBatches (s : List α) (batchSize : Nat) : List (List α) :=
  divideGo batchSize s [] []

/-- Reference chunking: consecutive blocks of `b` elements (used only to
reason about `divideIntoBatches`). -/
def chunks (b : Nat) (l : List α) : List (List α) :=
  match l with
  | [] => []
  | x :: xs =>
    if h : b = 0 then [] else (x :: xs).take b :: chunks b ((x :: xs).drop b)
termination_by l.length
decreasing_by
  simp only [List.length_drop, List.length_cons]
  omega

theorem chunks_nil (b : Nat) : chunks b ([] : List α) = [] := by
  rw [chunks]

theorem chunks_cons (b : Nat) (hb : 0 < b) (x : α) (xs : List α) :
    chunks b (x :: xs) = (x :: xs).take b :: chunks b ((x :: xs).drop b) := by
  rw [chunks]
  rw [dif_neg (by omega)]

theorem chunks_ne_nil (b : Nat) (hb : 0 < b) (l : List α) (hl : l ≠ []) :
    chunks b l = l.take b :: chunks b (l.drop b) := by
  cases l with
  | nil => exact absurd rfl hl
  | cons x xs => exact chunks_cons b hb x xs

/-- The worker loop emits exactly the accumulated batches followed by the
`b`-chunks of the pending batch prepended to the remaining input. -/
theorem divideGo_eq_chunks (b : Nat) (hb : 0 < b) :
    ∀ (l batch : List α) (batches : List (List α)), batch.length < b →
      divideGo b l batch batches = batches ++ chunks b (batch ++ l) := by
  intro l
  induction l with
  | nil =>
    intro batch batches hlen
    simp only [divideGo, List.append_nil]
    by_cases he : batch = []
    · rw [he]
      simp [chunks_nil]
    · rw [if_pos (List.length_pos.mpr he)]
      rw [chunks_ne_nil b hb batch he]
      rw [List.take_of_length_le (by omega), List.drop_eq_nil_of_le (by omega)]
      rw [chunks_nil]
  | cons x rest ih =>
    intro batch batches hlen
    simp only [divideGo]
    by_cases hfull : (batch ++ [x]).length = b
    · rw [if_pos hfull]
      rw [ih [] (batches ++ [batch ++ [x]]) (by simpa using hb)]
      simp only [List.nil_append]
      have hsplit : batch ++ x :: rest = (batch ++ [x]) ++ rest := by simp
      rw [hsplit]
      by_cases hrest : rest = []
      · rw [hrest]
        simp only [List.append_nil]
        rw [chunks_ne_nil b hb (batch ++ [x]) (by simp)]
        rw [List.take_of_length_le (by omega), List.drop_eq_nil_of_le (by omega)]
        simp [chunks_nil]
      · rw [chunks_ne_nil b hb ((batch ++ [x]) ++ rest) (by simp)]
        have htake : ((batch ++ [x]) ++ rest).take b = batch ++ [x] := by
          rw [← hfull]
          exact List.take_left (batch ++ [x]) rest
        have hdrop : ((batch ++ [x]) ++ rest).drop b = rest := by
          rw [← hfull]
          exact List.drop_left (batch ++ [x]) rest
        rw [htake, hdrop]
        simp
    · rw [if_neg hfull]
      rw [ih (batch ++ [x]) batches (by simp at hfull ⊢; omega)]
      congr 2
      simp

/-- The function `divideIntoBatches` is exactly consecutive `b`-chunking of the input. -/
theorem divideIntoBatches_eq_chunks (b : Nat) (hb : 0 < b) (l : List α) :
    divideIntoBatches l b = chunks b l := by
  unfold divideIntoBatches
  rw [divideGo_eq_chunks b hb l [] [] (by simpa using hb)]
  simp

theorem chunks_flatten (b : Nat) (hb : 0 < b) (l : List α) :
    (chunks b l).flatten = l := by
  cases l with
  | nil =>
    rw [chunks_nil]
    rfl
  | cons x xs =>
    rw [chunks_cons b hb x xs, List.flatten_cons,
      chunks_flatten b hb ((x :: xs).drop b)]
    exact List.take_append_drop b (x :: xs)
termination_by l.length
decreasing_by
  simp only [List.length_drop, List.length_cons]
  omega

theorem chunks_length (b : Nat) (hb : 0 < b) (l : List α) :
    (chunks b l).length = (l.length + b - 1) / b := by
  cases l with
  | nil =>
    rw [chunks_nil]
    simp only [List.length_nil, List.length]
    symm
    apply Nat.div_eq_of_lt
    omega
  | cons x xs =>
    rw [chunks_cons b hb x xs, List.length_cons,
      chunks_length b hb ((x :: xs).drop b)]
    simp only [List.length_drop, List.length_cons]
    have hrw : xs.length + 1 + b - 1 = (xs.length + 1 - 1) + b := by omega
    rw [hrw, Nat.add_div_right _ hb]
    by_cases hcase : xs.length + 1 ≤ b
    · have h1 : xs.length + 1 - b = 0 := by omega
      rw [h1]
      have h2 : (0 + b - 1) / b = 0 := Nat.div_eq_of_lt (by omega)
      have h3 : (xs.length + 1 - 1) / b = 0 := Nat.div_eq_of_lt (by omega)
      omega
    · have h1 : xs.length + 1 - b + b - 1 = xs.length + 1 - 1 := by omega
      rw [h1]
termination_by l.length
decreasing_by
  simp only [List.length_drop, List.length_cons]
  omega

theorem chunks_eq_nil_iff (b : Nat) (hb : 0 < b) (l : List α) :
    chunks b l = [] ↔ l = [] := by
  cases l with
  | nil => simp [chunks_nil]
  | cons x xs =>
    rw [chunks_cons b hb x xs]
    simp

/-- Every chunk except possibly the last has exactly `b` elements; the last
has `l.length % b` elements when that is non-zero, else `b`. -/
theorem chunks_getD_length (b : Nat) (hb : 0 < b) (l : List α) :
    ∀ i, i < (chunks b l).length →
      ((chunks b l).getD i []).length =
        if i + 1 < (chunks b l).length then b
        else if l.length % b = 0 then b else l.length % b := by
  cases l with
  | nil =>
    intro i h
    rw [chunks_nil] at h
    exact absurd h (by simp)
  | cons x xs =>
    intro i h
    have hcons := chunks_cons b hb x xs
    rw [hcons] at h ⊢
    cases i with
    | zero =>
      rw [List.getD_cons_zero]
      by_cases hT : chunks b ((x :: xs).drop b) = []
      · have hdrop : (x :: xs).drop b = [] :=
          (chunks_eq_nil_iff b hb _).mp hT
        have hle : (x :: xs).length ≤ b := by
          by_contra hgt
          push_neg at hgt
          have hne : (x :: xs).drop b ≠ [] := by
            intro hnil
            have := congrArg List.length hnil
            simp only [List.length_drop, List.length_nil] at this
            omega
          exact hne hdrop
        rw [if_neg (by rw [hT]; simp)]
        rw [List.length_take]
        simp only [List.length_cons] at hle ⊢
        by_cases hmod : (xs.length + 1) % b = 0
        · rw [if_pos hmod]
          have heq : xs.length + 1 = b := by
            rcases Nat.lt_or_ge (xs.length + 1) b with hlt | hge
            · rw [Nat.mod_eq_of_lt hlt] at hmod
              omega
            · omega
          omega
        · rw [if_neg hmod]
          have hlt : xs.length + 1 < b := by
            rcases Nat.lt_or_ge (xs.length + 1) b with hlt | hge
            · exact hlt
            · have heq : xs.length + 1 = b := by omega
              rw [heq] at hmod
              simp at hmod
          rw [Nat.mod_eq_of_lt hlt]
          omega
      · have hlen : 0 < (chunks b ((x :: xs).drop b)).length :=
          List.length_pos.mpr hT
        rw [if_pos (by simp only [List.length_cons]; omega)]
        have hgt : b < (x :: xs).length := by
          by_contra hle
          push_neg at hle
          exact hT ((chunks_eq_nil_iff b hb _).mpr (List.drop_eq_nil_of_le hle))
        rw [List.length_take]
        omega
    | succ i =>
      rw [List.getD_cons_succ]
      have hi : i < (chunks b ((x :: xs).drop b)).length := by
        simp only [List.length_cons] at h
        omega
      have hrec := chunks_getD_length b hb ((x :: xs).drop b) i hi
      have hdropne : (x :: xs).drop b ≠ [] := by
        intro hnil
        rw [(chunks_eq_nil_iff b hb _).mpr hnil] at hi
        exact absurd hi (by simp)
      have hgt : b < (x :: xs).length := by
        by_contra hle
        push_neg at hle
        exact hdropne (List.drop_eq_nil_of_le hle)
      have hmod : ((x :: xs).drop b).length % b = (x :: xs).length % b := by
        rw [List.length_drop]
        conv_rhs => rw [← Nat.sub_add_cancel (Nat.le_of_lt hgt)]
        rw [Nat.add_mod_right]
      rw [hrec, hmod]
      simp only [List.length_cons]
      by_cases hcond : i + 1 < (chunks b ((x :: xs).drop b)).length
      · rw [if_pos hcond,
          if_pos (show i + 1 + 1 < (chunks b ((x :: xs).drop b)).length + 1 by omega)]
      · rw [if_neg hcond,
          if_neg (show ¬ i + 1 + 1 < (chunks b ((x :: xs).drop b)).length + 1 by omega)]
termination_by l.length
decreasing_by
  all_goals simp only [List.length_drop, List.length_cons]
  all_goals omega

/-- C4: for distinct input and positive batch size, `divideIntoBatches`
returns `ceil(|S| / b)` batches; every batch except possibly the last has
exactly `b` elements, the last has `|S| mod b` elements when non-zero (else
`b`); the batches have no internal duplicates, are pairwise disjoint, and
concatenate back to the input, so merging per-batch results introduces no
duplicates from the split itself. -/
theorem divideIntoBatches_partition {β : Type} (l : List β) (b : Nat)
    (hb : 0 < b) (hnd : l.Nodup) :
    (divideIntoBatches l b).length = (l.length + b - 1) / b ∧
    (divideIntoBatches l b).flatten = l ∧
    (∀ c ∈ divideIntoBatches l b, c.Nodup) ∧
    (divideIntoBatches l b).Pairwise List.Disjoint ∧
    (∀ i, i < (divideIntoBatches l b).length →
      ((divideIntoBatches l b).getD i []).length =
        if i + 1 < (divideIntoBatches l b).length then b
        else if l.length % b = 0 then b else l.length % b) := by
  rw [divideIntoBatches_eq_chunks b hb]
  have hflat := chunks_flatten b hb l
  have hnodup := List.nodup_flatten.mp (by rw [hflat]; exact hnd)
  exact ⟨chunks_length b hb l, hflat, hnodup.1, hnodup.2, chunks_getD_length b hb l⟩

/-- Witness for C4 at the spec's example scenario C: 25 distinct items with
batch size 10 are split into batches of sizes 10, 10 and 5 that concatenate
back to the input. -/
theorem divideIntoBatches_partition_witness :
    (divideIntoBatches (List.range 25) 10).map List.length = [10, 10, 5] ∧
    (divideIntoBatches (List.range 25) 10).length = 3 ∧
    (divideIntoBatches (List.range 25) 10).flatten = List.range 25 := by
  have h := divideIntoBatches_partition (List.range 25) 10 (by omega) (List.nodup_range 25)
  refine ⟨by rfl, ?_, h.2.1⟩
  rw [h.1]
  rfl

end Batching

namespace Aptos

/-!
Model of `aptosLogMessagePublishedMapper` (`src/unnamed/part_000`).

The source looks up `transaction.events.find(tx => tx.type.includes("::state::WormholeMessage"))`
and immediately dereferences `wormholeEvent.data`.  When `find` produces no
match, `wormholeEvent` is `undefined` and the `.data` access throws a
TypeError at runtime, even though the declared return type of the mapper is
`LogFoundEvent<LogMessagePublished> | undefined`.  The throw is modelled as
`Except.error`; a (never taken) clean no-match return would be
`Except.ok none`.
-/

def REDEEM_EVENT_TAIL : String := "::state::WormholeMessage"

def CHAIN_ID_APTOS : Nat := 22

/-- JS `String.prototype.includes`: substring containment. -/
def jsIncludes (s pat : String) : Bool := decide (pat.data <:+: s.data)

/-- JS `String.prototype.padStart(n, c)` with a single-character pad. -/
def padStart (s : String) (n : Nat) (c : Char) : String :=
  ⟨List.replicate (n - s.length) c ++ s.data⟩

/-- JS `Number(string)` restricted to the decimal naturals the mapper
consumes; a non-numeric string gives `none` (NaN). -/
def jsNumber (s : String) : Option Nat := s.toNat?

/-- Characters before the first occurrence of `sep`. -/
def splitFirstAux (sep : List Char) : List Char → List Char
  | [] => []
  | c :: rest => if decide (sep <+: (c :: rest)) then [] else c :: splitFirstAux sep rest

/-- JS `s.split(sep)[0]`: the first `sep`-separated segment of `s`. -/
def jsSplitFirst (s sep : String) : String := ⟨splitFirstAux sep.data s.data⟩

structure AptosEventData where
  sender : String
  sequence : String
  payload : String
  nonce : String
  consistencyLevel : Nat
  timestamp : Nat
deriving DecidableEq, Repr

structure AptosEvent where
  type : String
  data : AptosEventData
deriving DecidableEq, Repr

structure AptosPayload where
  function : String
deriving DecidableEq, Repr

structure AptosTransaction where
  hash : String
  blockHeight : Nat
  events : List AptosEvent
  payload : AptosPayload
deriving DecidableEq, Repr

structure LogMessagePublished where
  sender : String
  sequence : Option Nat
  payload : String
  nonce : Option Nat
  consistencyLevel : Nat
deriving DecidableEq, Repr

structure LogFoundEvent where
  name : String
  address : String
  chainId : Nat
  txHash : String
  blockHeight : Nat
  blockTime : Nat
  attributes : LogMessagePublished
deriving DecidableEq, Repr

/-- The runtime TypeError raised by accessing `.data` on `undefined`. -/
inductive JsException where
  | typeErrorUndefined
deriving DecidableEq, Repr

def aptosLogMessagePublishedMapper (transaction : AptosTransaction) :
    Except JsException (Option LogFoundEvent) :=
  match transaction.events.find? (fun tx => jsIncludes tx.type REDEEM_EVENT_TAIL) with
  | none => Except.error JsException.typeErrorUndefined
  | some wormholeEvent =>
    let wormholeData := wormholeEvent.data
    let address := jsSplitFirst transaction.payload.function ("::")
    let sender := padStart wormholeData.sender 64 '0'
    Except.ok (some
      { name := "log-message-published"
        address := address
        chainId := CHAIN_ID_APTOS
        txHash := transaction.hash
        blockHeight := transaction.blockHeight
        blockTime := wormholeData.timestamp
        attributes :=
          { sender := sender
            sequence := jsNumber wormholeData.sequence
            payload := wormholeData.payload
            nonce := jsNumber wormholeData.nonce
            consistencyLevel := wormholeData.consistencyLevel } })

/-- A transaction none of whose events is a WormholeMessage event. -/
def aptosNoMatchTx : AptosTransaction :=
  { hash := "0x01"
    blockHeight := 7
    events := [
      { type := "0x1::coin::DepositEvent"
        data := { sender := "0", sequence := "0", payload := "", nonce := "0"
                  consistencyLevel := 0, timestamp := 0 } } ]
    payload := { function := "0x1::coin::transfer" } }

theorem padStart_length (s : String) (n : Nat) (c : Char) :
    (padStart s n c).length = max n s.length := by
  simp only [padStart, String.length]
  simp only [List.length_append, List.length_replicate]
  omega

end Aptos

namespace Aptos

/-- C5 (code behaviour at the failing input): on a transaction with no
`::state::WormholeMessage` event, `aptosLogMessagePublishedMapper` throws a
TypeError (the `find` result is `undefined` and `.data` is dereferenced); it
does not return `undefined`. -/
theorem aptos_mapper_no_match_throws :
    aptosLogMessagePublishedMapper aptosNoMatchTx =
      Except.error JsException.typeErrorUndefined ∧
    aptosLogMessagePublishedMapper aptosNoMatchTx ≠ Except.ok none := by
  refine ⟨by rfl, ?_⟩
  intro hcontra
  rw [(by rfl : aptosLogMessagePublishedMapper aptosNoMatchTx =
    Except.error JsException.typeErrorUndefined)] at hcontra
  exact Except.noConfusion hcontra

/-- C9: on a transaction whose events contain a `::state::WormholeMessage`
event, the mapper returns exactly one event named `log-message-published`
with chainId 22, the transaction's hash, the first `::`-separated segment of
the payload function as address, and the event sender left-padded with `0`
to width 64. -/
theorem aptos_mapper_match (t : AptosTransaction) (ev : AptosEvent)
    (hfind : t.events.find? (fun tx => jsIncludes tx.type REDEEM_EVENT_TAIL) = some ev)
    (hlen : ev.data.sender.length ≤ 64) :
    ∃ e : LogFoundEvent,
      aptosLogMessagePublishedMapper t = Except.ok (some e) ∧
      e.name = "log-message-published" ∧
      e.chainId = 22 ∧
      e.txHash = t.hash ∧
      e.address = jsSplitFirst t.payload.function ("::") ∧
      e.attributes.sender = padStart ev.data.sender 64 '0' ∧
      e.attributes.sender.length = 64 := by
  refine ⟨{ name := "log-message-published"
            address := jsSplitFirst t.payload.function ("::")
            chainId := CHAIN_ID_APTOS
            txHash := t.hash
            blockHeight := t.blockHeight
            blockTime := ev.data.timestamp
            attributes :=
              { sender := padStart ev.data.sender 64 '0'
                sequence := jsNumber ev.data.sequence
                payload := ev.data.payload
                nonce := jsNumber ev.data.nonce
                consistencyLevel := ev.data.consistencyLevel } },
    ?_, rfl, rfl, rfl, rfl, rfl, ?_⟩
  · unfold aptosLogMessagePublishedMapper
    rw [hfind]
  · show (padStart ev.data.sender 64 '0').length = 64
    rw [padStart_length]
    omega

/-- A transaction whose second event is a WormholeMessage event. -/
def aptosMatchTx : AptosTransaction :=
  { hash := "0xafc"
    blockHeight := 100
    events := [
      { type := "0x1::coin::WithdrawEvent"
        data := { sender := "0", sequence := "0", payload := "", nonce := "0"
                  consistencyLevel := 0, timestamp := 0 } },
      { type := "0x5bc::state::WormholeMessage"
        data := { sender := "b1086", sequence := "34", payload := "0x01aa", nonce := "76704"
                  consistencyLevel := 0, timestamp := 1675605433 } } ]
    payload := { function := "0xdeadbeef::vaa::submit" } }

/-- The matching event inside `aptosMatchTx`. -/
def aptosMatchEvent : AptosEvent :=
  { type := "0x5bc::state::WormholeMessage"
    data := { sender := "b1086", sequence := "34", payload := "0x01aa", nonce := "76704"
              consistencyLevel := 0, timestamp := 1675605433 } }

/-- Witness for C9 at a concrete transaction. -/
theorem aptos_mapper_match_witness :
    ∃ e : LogFoundEvent,
      aptosLogMessagePublishedMapper aptosMatchTx = Except.ok (some e) ∧
      e.name = "log-message-published" ∧
      e.chainId = 22 ∧
      e.txHash = "0xafc" ∧
      e.address = "0xdeadbeef" ∧
      e.attributes.sender = padStart ("b1086") 64 '0' ∧
      e.attributes.sender.length = 64 := by
  obtain ⟨e, h1, h2, h3, h4, h5, h6, h7⟩ :=
    aptos_mapper_match aptosMatchTx aptosMatchEvent (by rfl) (by decide)
  exact ⟨e, h1, h2, h3, by rw [h4]; rfl, by rw [h5]; rfl, by rw [h6]; rfl, h7⟩

end Aptos

namespace EvmMapper

/-!
Modelled from the spec: the source of `evmTransactionFoundMapper` and
`HandleEvmTransactions` is not included under `src/`; only their unit test
(`src/blockchain-watcher/test/infrastructure/mappers/evmTransactionFoundMapper.test.ts`)
is.  The model follows the spec's mapper contract (one raw EVM transaction
maps to one normalized event, with the known-method lookup keyed on the
input selector) and is pinned by the test's concrete expectations: the
produced event is named `evm-transaction-found`, `attributes.name` carries
the protocol-level event name (`transfer-redeemed`) and
`attributes.methodsByAddress` the method's human-readable name
(`MethodCompleteTransfer` for selector `0xc6878519`).
-/

structure EvmTransaction where
  hash : String
  input : String
  fromAddress : String
  toAddress : String
  chainId : Nat
  blockNumber : Nat
  status : String
deriving DecidableEq, Repr

structure EvmTransactionAttributes where
  name : String
  methodsByAddress : String
  fromAddress : String
  toAddress : String
  blockNumber : Nat
  status : String
deriving DecidableEq, Repr

structure NormalizedEvent where
  name : String
  chainId : Nat
  txHash : String
  blockHeight : Nat
  attributes : EvmTransactionAttributes
deriving DecidableEq, Repr

/-- The 4-byte method selector: the first 10 characters (`0x` + 8 hex) of the
transaction input. -/
def txSelector (input : String) : String := ⟨input.data.take 10⟩

/-- Known-method table: selector to (human-readable method name,
protocol event name), as evidenced by the unit test. -/
def knownMethodsById (selector : String) : Option (String × String) :=
  if selector = "0xc6878519" then some ("MethodCompleteTransfer", "transfer-redeemed")
  else none

/-- Modelled from the spec: `evmTransactionFoundMapper` maps one raw EVM
transaction to one normalized event. -/
def evmTransactionFoundMapper (tx : EvmTransaction) : NormalizedEvent :=
  let methodInfo := knownMethodsById (txSelector tx.input)
  { name := "evm-transaction-found"
    chainId := tx.chainId
    txHash := tx.hash
    blockHeight := tx.blockNumber
    attributes :=
      { name := (methodInfo.map Prod.snd).getD ("unknown")
        methodsByAddress := (methodInfo.map Prod.fst).getD ("unknown")
        fromAddress := tx.fromAddress
        toAddress := tx.toAddress
        blockNumber := tx.blockNumber
        status := tx.status } }

/-- Modelled from the spec: `HandleEvmTransactions.handle` applies the mapper
to each raw transaction, one event per transaction. -/
def handleEvmTransactions (txs : List EvmTransaction) : List NormalizedEvent :=
  txs.map evmTransactionFoundMapper

/-- The raw transaction of the unit test (selector `0xc6878519`,
`completeTransfer`). -/
def testTx : EvmTransaction :=
  { hash := "0x612a35f6739f70a81dfc34448c68e99dbcfe8dafaf241edbaa204cf0e236494d"
    input := "0xc68785190000000000000000000000000000000000000000000000000000000000000001637651ef71f834be28b8fab1dce9c228c2fe1813831bbc3673cfd3abde6dbb3d00000000000000000000000000000000000000000000000000000000000000000000000000000000000000000000000000000000000000000000000080420000"
    fromAddress := "0xfb070adcd21361a3946a0584dc84a7b89faa68e3"
    toAddress := "0xf890982f9310df57d00f659cf4fd87e65aded8d7"
    chainId := 1
    blockNumber := 18793148
    status := "0x1" }

/-- Counterexample for C6: at the unit test's transaction the produced event
is named `evm-transaction-found`, not `transfer-redeemed`;
`transfer-redeemed` appears as `attributes.name`, while
`attributes.methodsByAddress` is the method's human-readable name. -/
theorem evm_mapper_event_name_counterexample :
    (handleEvmTransactions [testTx]).length = 1 ∧
    (evmTransactionFoundMapper testTx).name = "evm-transaction-found" ∧
    (evmTransactionFoundMapper testTx).name ≠ "transfer-redeemed" ∧
    (evmTransactionFoundMapper testTx).attributes.name = "transfer-redeemed" ∧
    (evmTransactionFoundMapper testTx).attributes.methodsByAddress =
      "MethodCompleteTransfer" := by
  refine ⟨rfl, rfl, ?_, rfl, rfl⟩
  intro hcontra
  rw [(rfl : (evmTransactionFoundMapper testTx).name = "evm-transaction-found")] at hcontra
  exact absurd hcontra (by decide)

/-- C6 (amended): a raw EVM transaction whose input selector matches a known
method produces exactly one normalized event, named `evm-transaction-found`,
whose `attributes.name` is the method's protocol event name
(`transfer-redeemed`) and whose `attributes.methodsByAddress` is the
method's human-readable name. -/
theorem evm_mapper_known_method (tx : EvmTransaction) (methodName eventName : String)
    (h : knownMethodsById (txSelector tx.input) = some (methodName, eventName)) :
    handleEvmTransactions [tx] = [evmTransactionFoundMapper tx] ∧
    (evmTransactionFoundMapper tx).name = "evm-transaction-found" ∧
    (evmTransactionFoundMapper tx).attributes.methodsByAddress = methodName ∧
    (evmTransactionFoundMapper tx).attributes.name = eventName ∧
    (evmTransactionFoundMapper tx).txHash = tx.hash ∧
    (evmTransactionFoundMapper tx).chainId = tx.chainId := by
  refine ⟨rfl, rfl, ?_, ?_, rfl, rfl⟩
  · show ((knownMethodsById (txSelector tx.input)).map Prod.fst).getD ("unknown") = methodName
    rw [h]
    rfl
  · show ((knownMethodsById (txSelector tx.input)).map Prod.snd).getD ("unknown") = eventName
    rw [h]
    rfl

/-- Witness for the amended C6 at the unit test's transaction. -/
theorem evm_mapper_known_method_witness :
    (evmTransactionFoundMapper testTx).name = "evm-transaction-found" ∧
    (evmTransactionFoundMapper testTx).attributes.methodsByAddress =
      "MethodCompleteTransfer" ∧
    (evmTransactionFoundMapper testTx).attributes.name = "transfer-redeemed" := by
  have h := evm_mapper_known_method testTx ("MethodCompleteTransfer") ("transfer-redeemed")
    (by rfl)
  exact ⟨h.2.1, h.2.2.1, h.2.2.2.1⟩

end EvmMapper

namespace Wiring

/-!
Model of `StaticJobRepository` (`src/unnamed/part_000`): the name-keyed
registries filled by `fill()`, the lookup methods `getSource`, `getHandlers`
and `getTarget`, and the dry-run target substitution.  `getTarget` looks up
`this.targets.get(this.dryRun ? "dummy" : target)`; the `HandleEvmLogs` and
`HandleEvmTransactions` factories use the same `dryRun ? "dummy" : target`
lookup with a non-null assertion (an unregistered name throws a TypeError
there instead of the `Target ... not found` Error); both thrown paths are
modelled as `Except.error`.  Thrown errors are modelled as `Except.error`
carrying the message, so an error result carries no partially wired value.
-/

/-- The two registered targets: the SNS publisher and the no-op dummy sink. -/
inductive TargetKind where
  | sns
  | dummy
deriving DecidableEq, Repr

/-- The target registry filled by `fill()`: `"sns"` and `"dummy"`. -/
def registeredTargets (name : String) : Option TargetKind :=
  if name = "sns" then some TargetKind.sns
  else if name = "dummy" then some TargetKind.dummy
  else none

/-- The dummy target's delivery: a no-op that only logs the event count. -/
def dummyDeliver (eventCount : Nat) : String :=
  "[target dummy] Got " ++ toString eventCount ++ " events"

/-- The source registry keys filled by `fill()`. -/
def registeredSources : List String :=
  ["PollEvm", "PollSolanaTransactions", "PollSuiTransactions", "PollAptos"]

/-- The handler registry keys filled by `fill()`. -/
def registeredHandlers : List String :=
  ["HandleEvmLogs", "HandleEvmTransactions", "HandleSolanaTransactions",
    "HandleSuiTransactions", "HandleAptosTransactions"]

/-- The mapper registry keys filled by `fill()`. -/
def registeredMappers : List String :=
  ["evmLogMessagePublishedMapper", "evmRedeemedTransactionFoundMapper",
    "solanaLogMessagePublishedMapper", "solanaTransferRedeemedMapper",
    "suiLogMessagePublishedMapper", "suiRedeemedTransactionFoundMapper",
    "aptosLogMessagePublishedMapper", "aptosRedeemedTransactionFoundMapper"]

/-- One entry of a job definition's `handlers` array. -/
structure HandlerDef where
  action : String
  target : String
  mapper : String
deriving DecidableEq, Repr

/-- The parts of a `JobDefinition` the wiring consults. -/
structure JobDef where
  id : String
  sourceAction : String
  handlers : List HandlerDef
deriving DecidableEq, Repr

/-- The method `StaticJobRepository.getTarget`: look up `dryRun ? "dummy" : target` and
throw `Target ${target} not found` on a miss. -/
def getTarget (dryRun : Bool) (target : String) : Except String TargetKind :=
  match registeredTargets (if dryRun then "dummy" else target) with
  | some t => Except.ok t
  | none => Except.error ("Target " ++ target ++ " not found")

/-- The method `StaticJobRepository.getSource`: the job's source action must be a
registered source. -/
def getSource (jobDef : JobDef) : Except String String :=
  if jobDef.sourceAction ∈ registeredSources then Except.ok jobDef.sourceAction
  else Except.error ("Source " ++ jobDef.sourceAction ++ " not found")

/-- A handler wired to its resolved collaborators. -/
structure WiredHandler where
  action : String
  mapper : String
  target : TargetKind
deriving DecidableEq, Repr

/-- Wiring of a single handler entry inside `getHandlers`: unknown action,
unknown mapper (the source throws `Handler ${mapper} not found` for that
case too) and the target resolution of the invoked handler factory. -/
def wireHandler (dryRun : Bool) (h : HandlerDef) : Except String WiredHandler :=
  if h.action ∈ registeredHandlers then
    if h.mapper ∈ registeredMappers then
      match getTarget dryRun h.target with
      | Except.ok t => Except.ok { action := h.action, mapper := h.mapper, target := t }
      | Except.error e => Except.error e
    else Except.error ("Handler " ++ h.mapper ++ " not found")
  else Except.error ("Handler " ++ h.action ++ " not found")

/-- The `for (const handler of jobDef.handlers)` loop of `getHandlers`:
wires the entries in order, propagating the first thrown error. -/
def getHandlersGo (dryRun : Bool) : List HandlerDef → Except String (List WiredHandler)
  | [] => Except.ok []
  | h :: rest =>
    match wireHandler dryRun h with
    | Except.error e => Except.error e
    | Except.ok w =>
      match getHandlersGo dryRun rest with
      | Except.error e => Except.error e
      | Except.ok ws => Except.ok (w :: ws)

/-- The method `StaticJobRepository.getHandlers`. -/
def getHandlers (dryRun : Bool) (jobDef : JobDef) : Except String (List WiredHandler) :=
  getHandlersGo dryRun jobDef.handlers

end Wiring

namespace Wiring

/-- C7: with `dryRun = true` every target name resolves to the dummy sink —
the resolution does not depend on the declared target name — and a wired
handler keeps the same action and mapper as in non-dry-run mode; only the
target differs.  The dummy sink only logs the event count. -/
theorem dry_run_replaces_target (name1 name2 : String) (h : HandlerDef) :
    getTarget true name1 = Except.ok TargetKind.dummy ∧
    getTarget true name1 = getTarget true name2 ∧
    (∀ w, wireHandler true h = Except.ok w →
      w.target = TargetKind.dummy ∧ w.action = h.action ∧ w.mapper = h.mapper) ∧
    (∀ w w2, wireHandler true h = Except.ok w → wireHandler false h = Except.ok w2 →
      w.action = w2.action ∧ w.mapper = w2.mapper) ∧
    (∀ n, dummyDeliver n = "[target dummy] Got " ++ toString n ++ " events") := by
  refine ⟨rfl, rfl, ?_, ?_, fun n => rfl⟩
  · intro w hw
    unfold wireHandler at hw
    by_cases ha : h.action ∈ registeredHandlers
    · rw [if_pos ha] at hw
      by_cases hm : h.mapper ∈ registeredMappers
      · rw [if_pos hm] at hw
        revert hw
        show (match getTarget true h.target with
          | Except.ok t => Except.ok { action := h.action, mapper := h.mapper, target := t }
          | Except.error e => Except.error e) = Except.ok w → _
        rw [(rfl : getTarget true h.target = Except.ok TargetKind.dummy)]
        intro hw
        cases hw
        exact ⟨rfl, rfl, rfl⟩
      · rw [if_neg hm] at hw
        exact Except.noConfusion hw
    · rw [if_neg ha] at hw
      exact Except.noConfusion hw
  · intro w w2 hw hw2
    unfold wireHandler at hw hw2
    by_cases ha : h.action ∈ registeredHandlers
    · rw [if_pos ha] at hw hw2
      by_cases hm : h.mapper ∈ registeredMappers
      · rw [if_pos hm] at hw hw2
        cases ht : getTarget true h.target with
        | ok t =>
          rw [ht] at hw
          cases ht2 : getTarget false h.target with
          | ok t2 =>
            rw [ht2] at hw2
            cases hw
            cases hw2
            exact ⟨rfl, rfl⟩
          | error e2 =>
            rw [ht2] at hw2
            exact Except.noConfusion hw2
        | error e =>
          rw [ht] at hw
          exact Except.noConfusion hw
      · rw [if_neg hm] at hw
        exact Except.noConfusion hw
    · rw [if_neg ha] at hw
      exact Except.noConfusion hw

/-- Witness for C7 at concrete names: an arbitrary (even unregistered) target
name resolves to the dummy sink in dry-run mode. -/
theorem dry_run_replaces_target_witness :
    getTarget true ("sns") = Except.ok TargetKind.dummy := by
  have h := dry_run_replaces_target ("sns") ("dummy")
    { action := "HandleEvmLogs", target := "sns", mapper := "evmLogMessagePublishedMapper" }
  exact h.1

/-- Counterexample for C8 as stated: with dry-run enabled, an unregistered
target name does NOT make target resolution throw — the declared name is
ignored and the dummy sink is returned, so the wiring succeeds. -/
theorem unknown_target_dry_run_counterexample :
    registeredTargets ("bogus") = none ∧
    getTarget true ("bogus") = Except.ok TargetKind.dummy ∧
    (∃ w, wireHandler true
      { action := "HandleSolanaTransactions", target := "bogus",
        mapper := "solanaLogMessagePublishedMapper" } = Except.ok w) := by
  refine ⟨rfl, rfl,
    ⟨{ action := "HandleSolanaTransactions",
       mapper := "solanaLogMessagePublishedMapper",
       target := TargetKind.dummy }, rfl⟩⟩

theorem wireHandler_error (d : Bool) (h : HandlerDef)
    (hbad : h.action ∉ registeredHandlers ∨ h.mapper ∉ registeredMappers ∨
      (d = false ∧ registeredTargets h.target = none)) :
    ∃ e, wireHandler d h = Except.error e := by
  unfold wireHandler
  by_cases ha : h.action ∈ registeredHandlers
  · rw [if_pos ha]
    by_cases hm : h.mapper ∈ registeredMappers
    · rw [if_pos hm]
      rcases hbad with hb | hb | ⟨hd, ht⟩
      · exact absurd ha hb
      · exact absurd hm hb
      · subst hd
        have htgt : getTarget false h.target =
            Except.error ("Target " ++ h.target ++ " not found") := by
          simp [getTarget, ht]
        rw [htgt]
        exact ⟨_, rfl⟩
    · rw [if_neg hm]
      exact ⟨_, rfl⟩
  · rw [if_neg ha]
    exact ⟨_, rfl⟩

theorem getHandlersGo_error (d : Bool) (l : List HandlerDef) (h : HandlerDef)
    (hmem : h ∈ l) (he : ∃ e, wireHandler d h = Except.error e) :
    ∃ e2, getHandlersGo d l = Except.error e2 := by
  induction l with
  | nil => cases hmem
  | cons x rest ih =>
    rcases List.mem_cons.mp hmem with hx | hx
    · subst hx
      obtain ⟨e, he⟩ := he
      exact ⟨e, by simp [getHandlersGo, he]⟩
    · cases hw : wireHandler d x with
      | error e => exact ⟨e, by simp [getHandlersGo, hw]⟩
      | ok w =>
        obtain ⟨e2, he2⟩ := ih hx
        exact ⟨e2, by simp [getHandlersGo, hw, he2]⟩

/-- C8 (amended): unknown names fail at wiring time with nothing returned —
an unregistered source action makes `getSource` throw; an unregistered
handler action or mapper name makes `getHandlers` throw in either mode; an
unregistered target name makes target resolution, and hence `getHandlers`,
throw when dry-run is disabled (with dry-run enabled the declared target
name is ignored in favour of the dummy sink, see the counterexample). -/
theorem unknown_names_fail_wiring (jobDef : JobDef) (h : HandlerDef) (d : Bool)
    (hmem : h ∈ jobDef.handlers) :
    (jobDef.sourceAction ∉ registeredSources → ∃ e, getSource jobDef = Except.error e) ∧
    (h.action ∉ registeredHandlers → ∃ e, getHandlers d jobDef = Except.error e) ∧
    (h.mapper ∉ registeredMappers → ∃ e, getHandlers d jobDef = Except.error e) ∧
    (registeredTargets h.target = none →
      getTarget false h.target = Except.error ("Target " ++ h.target ++ " not found") ∧
      ∃ e, getHandlers false jobDef = Except.error e) := by
  refine ⟨?_, ?_, ?_, ?_⟩
  · intro hs
    unfold getSource
    rw [if_neg hs]
    exact ⟨_, rfl⟩
  · intro hb
    exact getHandlersGo_error d jobDef.handlers h hmem (wireHandler_error d h (Or.inl hb))
  · intro hb
    exact getHandlersGo_error d jobDef.handlers h hmem
      (wireHandler_error d h (Or.inr (Or.inl hb)))
  · intro ht
    refine ⟨by simp [getTarget, ht], ?_⟩
    exact getHandlersGo_error false jobDef.handlers h hmem
      (wireHandler_error false h (Or.inr (Or.inr ⟨rfl, ht⟩)))

/-- A job definition with an unregistered source action and an unregistered
target name. -/
def badJob : JobDef :=
  { id := "j1"
    sourceAction := "PollCosmos"
    handlers := [{ action := "HandleEvmLogs", target := "kafka",
                   mapper := "evmLogMessagePublishedMapper" }] }

/-- Witness for the amended C8 at a concrete mis-configured job. -/
theorem unknown_names_fail_wiring_witness :
    (∃ e, getSource badJob = Except.error e) ∧
    (∃ e, getHandlers false badJob = Except.error e) := by
  have h := unknown_names_fail_wiring badJob
    { action := "HandleEvmLogs", target := "kafka",
      mapper := "evmLogMessagePublishedMapper" }
    false (by decide)
  exact ⟨h.1 (by decide), (h.2.2.2 (by rfl)).2⟩

end Wiring

namespace ParserProc

/-!
Model of `Processor.Process` (`src/parser/processor/processor.go`).

Go's `(value, error)` return convention is kept as a pair of options; the
environment's responses (VAA unmarshalling, the vaa-payload-parser call, the
repository upsert) are inputs.  `errors.Is` against the parser client's
sentinel errors is modelled by a closed error-kind type.  Metric and alert
side effects carry no data dependency into the return values and are
elided.
-/

/-- Sentinel error kinds of the vaa-payload-parser client (`parser.ErrNotFound`,
`parser.ErrInternalError`, `parser.ErrCallEndpoint`) plus any other error. -/
inductive ParseErrKind where
  | notFound
  | internalError
  | callEndpoint
  | otherErr
deriving DecidableEq, Repr

/-- The fields of the unmarshalled VAA that `Process` reads. -/
structure VaaData where
  emitterChain : Nat
  emitterAddress : String
  sequence : Nat
  timestamp : Nat
deriving DecidableEq, Repr

/-- The id `vaa.MessageID()`: `chain/emitter/sequence`. -/
def messageId (v : VaaData) : String :=
  toString v.emitterChain ++ "/" ++ v.emitterAddress ++ "/" ++ toString v.sequence

structure ParseResponse where
  appId : String
  result : String
deriving DecidableEq, Repr

structure ParsedVaaUpdate where
  id : String
  emitterChain : Nat
  emitterAddr : String
  sequence : String
  appId : String
  result : String
  timestamp : Nat
deriving DecidableEq, Repr

/-- The non-nil errors `Process` can return. -/
inductive ProcErr where
  | unmarshalErr
  | parseErr (k : ParseErrKind)
  | upsertErr
deriving DecidableEq, Repr

/-- The `ParsedVaaUpdate` built from the VAA and the parser response. -/
def mkParsedVaaUpdate (v : VaaData) (r : ParseResponse) : ParsedVaaUpdate :=
  { id := messageId v
    emitterChain := v.emitterChain
    emitterAddr := v.emitterAddress
    sequence := toString v.sequence
    appId := r.appId
    result := r.result
    timestamp := v.timestamp }

/-- The method `Processor.Process`, given the outcome of `vaa.Unmarshal`, of
`parser.Parse` and of `repository.UpsertParsedVaa`. -/
def Process (unmarshalResult : Except Unit VaaData)
    (parse : VaaData → Except ParseErrKind ParseResponse)
    (upsert : ParsedVaaUpdate → Except Unit Unit) :
    Option ParsedVaaUpdate × Option ProcErr :=
  match unmarshalResult with
  | Except.error _ => (none, some ProcErr.unmarshalErr)
  | Except.ok v =>
    match parse v with
    | Except.error k =>
      if k = ParseErrKind.internalError ∨ k = ParseErrKind.callEndpoint then
        (none, some (ProcErr.parseErr k))
      else
        (none, none)
    | Except.ok resp =>
      match upsert (mkParsedVaaUpdate v resp) with
      | Except.error _ => (none, some ProcErr.upsertErr)
      | Except.ok _ => (some (mkParsedVaaUpdate v resp), none)

end ParserProc

namespace ParserProc

/-- C10: `Process` separates "not applicable" from retryable failure at its
return values: `ErrNotFound` from the parser yields `(nil, nil)` (no result,
no error, no retry); a non-nil error is returned only for an unmarshal
failure, a parser failure with `ErrInternalError`/`ErrCallEndpoint`, or an
upsert failure; and a non-nil `ParsedVaaUpdate` is returned only when the
upsert succeeded (and then the error is nil). -/
theorem process_return_discipline (u : Except Unit VaaData)
    (parse : VaaData → Except ParseErrKind ParseResponse)
    (upsert : ParsedVaaUpdate → Except Unit Unit) :
    (∀ v, u = Except.ok v → parse v = Except.error ParseErrKind.notFound →
      Process u parse upsert = (none, none)) ∧
    (∀ e, (Process u parse upsert).2 = some e →
      (e = ProcErr.unmarshalErr ∧ u = Except.error ()) ∨
      (∃ v k, u = Except.ok v ∧ parse v = Except.error k ∧
        (k = ParseErrKind.internalError ∨ k = ParseErrKind.callEndpoint) ∧
        e = ProcErr.parseErr k) ∨
      (∃ v resp, u = Except.ok v ∧ parse v = Except.ok resp ∧
        upsert (mkParsedVaaUpdate v resp) = Except.error () ∧
        e = ProcErr.upsertErr)) ∧
    (∀ p, (Process u parse upsert).1 = some p →
      ∃ v resp, u = Except.ok v ∧ parse v = Except.ok resp ∧
        upsert (mkParsedVaaUpdate v resp) = Except.ok () ∧
        p = mkParsedVaaUpdate v resp ∧
        (Process u parse upsert).2 = none) := by
  refine ⟨?_, ?_, ?_⟩
  · intro v hu hp
    subst hu
    simp only [Process, hp]
    rw [if_neg (by simp)]
  · intro e he
    cases u with
    | error uerr =>
      left
      simp only [Process] at he
      cases he
      exact ⟨rfl, by cases uerr; rfl⟩
    | ok v =>
      cases hp : parse v with
      | error k =>
        simp only [Process, hp] at he
        by_cases hk : k = ParseErrKind.internalError ∨ k = ParseErrKind.callEndpoint
        · rw [if_pos hk] at he
          cases he
          exact Or.inr (Or.inl ⟨v, k, rfl, hp, hk, rfl⟩)
        · rw [if_neg hk] at he
          exact Option.noConfusion he
      | ok resp =>
        cases hup : upsert (mkParsedVaaUpdate v resp) with
        | error uerr =>
          simp only [Process, hp, hup] at he
          cases he
          exact Or.inr (Or.inr ⟨v, resp, rfl, hp, by cases uerr; exact hup, rfl⟩)
        | ok unitv =>
          simp only [Process, hp, hup] at he
          exact Option.noConfusion he
  · intro p hp
    cases u with
    | error uerr =>
      simp only [Process] at hp
      exact Option.noConfusion hp
    | ok v =>
      cases hpr : parse v with
      | error k =>
        simp only [Process, hpr] at hp
        by_cases hk : k = ParseErrKind.internalError ∨ k = ParseErrKind.callEndpoint
        · rw [if_pos hk] at hp
          exact Option.noConfusion hp
        · rw [if_neg hk] at hp
          exact Option.noConfusion hp
      | ok resp =>
        cases hup : upsert (mkParsedVaaUpdate v resp) with
        | error uerr =>
          simp only [Process, hpr, hup] at hp
          exact Option.noConfusion hp
        | ok unitv =>
          simp only [Process, hpr, hup] at hp
          cases hp
          exact ⟨v, resp, rfl, hpr, by cases unitv; exact hup, rfl,
            by simp [Process, hpr, hup]⟩

/-- Concrete VAA for the witness. -/
def vaa0 : VaaData :=
  { emitterChain := 22, emitterAddress := "0000b1086", sequence := 34, timestamp := 1675 }

/-- Concrete parser response for the witness. -/
def resp0 : ParseResponse := { appId := "PORTAL_TOKEN_BRIDGE", result := "r1" }

/-- Witness for C10 at concrete inputs: a well-formed VAA whose payload the
parser reports as `ErrNotFound` produces `(nil, nil)`, and a successfully
parsed and upserted VAA is returned with a nil error. -/
theorem process_return_discipline_witness :
    Process (Except.ok vaa0) (fun _ => Except.error ParseErrKind.notFound)
      (fun _ => Except.ok ()) = (none, none) ∧
    (Process (Except.ok vaa0) (fun _ => Except.ok resp0)
      (fun _ => Except.ok ())).2 = none := by
  constructor
  · exact (process_return_discipline (Except.ok vaa0)
      (fun _ => Except.error ParseErrKind.notFound) (fun _ => Except.ok ())).1
      vaa0 rfl rfl
  · obtain ⟨v, resp, h1, h2, h3, h4, h5⟩ :=
      (process_return_discipline (Except.ok vaa0) (fun _ => Except.ok resp0)
        (fun _ => Except.ok ())).2.2 (mkParsedVaaUpdate vaa0 resp0) rfl
    exact h5

end ParserProc
